import Mathlib

/-!
Verification development for the cai repository's SSE streaming core.

Strings are modelled as `List Char` (mirroring Rust `&str` / `String`
operations character by character).  Rust machine integers that matter
(`u32` for `retry`) are modelled as `Nat` with an explicit `2^32` bound,
`usize` fields as `Nat`.  Fallible Rust code (`Result`) is modelled with
`Except`; the `assert!` in `SseStreamReader::maybe_parse` (a panic) is
modelled by an `Option` outcome where `none` means the assertion fired.
-/

set_option maxRecDepth 20000

namespace Cai

/-- Rust `str` is modelled as a list of characters. -/
abbrev Str := List Char

/-- The `"\n\n"` record delimiter of `SseResponse::from_chunk`. -/
def lf2 : Str := ['\n', '\n']

/-- The `"\r\n\r\n"` record delimiter of `SseResponse::from_chunk`. -/
def crlf2 : Str := ['\r', '\n', '\r', '\n']

/-- The `"\ndata: "` separator used for event/data splitting in
`SseResponse::from_chunk`. -/
def nlData : Str := "\ndata: ".toList

/-- Finds the leftmost occurrence of `sep` in `s`; returns the part before
and the part after it (model of the first step of Rust `str::split`).
`none` when `sep` does not occur in `s` (for nonempty `sep`). -/
def breakOnSub (sep : Str) : Str → Option (Str × Str)
  | [] => none
  | c :: rest =>
    if sep.isPrefixOf (c :: rest) then
      some ([], (c :: rest).drop sep.length)
    else
      match breakOnSub sep rest with
      | none => none
      | some (pre, post) => some (c :: pre, post)

/-- Fueled worker for `splitOnSub` (fuel makes kernel evaluation possible). -/
def splitOnSubF (sep : Str) : Nat → Str → List Str
  | 0, s => [s]
  | fuel + 1, s =>
    match breakOnSub sep s with
    | none => [s]
    | some (pre, post) => pre :: splitOnSubF sep fuel post

/-- Model of Rust `str::split(sep)` (for nonempty `sep`): splits `s` at
every leftmost-first non-overlapping occurrence of `sep`. -/
def splitOnSub (sep s : Str) : List Str :=
  splitOnSubF sep (s.length + 1) s

/-- Model of Rust `str::contains(sep)`. -/
def hasSub (sep s : Str) : Bool :=
  (breakOnSub sep s).isSome

/-- Tail worker of `joinWith`. -/
def joinTail (sep : Str) : List Str → Str
  | [] => []
  | x :: xs => sep ++ x ++ joinTail sep xs

/-- Model of Rust `[&str]::join(sep)`. -/
def joinWith (sep : Str) : List Str → Str
  | [] => []
  | x :: xs => x ++ joinTail sep xs

/-- Whitespace predicate modelling Rust `char::is_whitespace` restricted to
the ASCII whitespace characters that occur in this development. -/
def isWsChar (c : Char) : Bool :=
  c == ' ' || c == '\t' || c == '\n' || c == '\r'

/-- Model of Rust `str::trim`. -/
def trimWs (s : Str) : Str :=
  ((s.dropWhile isWsChar).reverse.dropWhile isWsChar).reverse

/-- Fueled worker for `trimStartMatches`. -/
def trimStartMatchesF (pat : Str) : Nat → Str → Str
  | 0, s => s
  | fuel + 1, s =>
    if pat ≠ [] ∧ pat.isPrefixOf s then
      trimStartMatchesF pat fuel (s.drop pat.length)
    else s

/-- Model of Rust `str::trim_start_matches(pat)`: repeatedly removes `pat`
from the front while it is a prefix. -/
def trimStartMatches (pat s : Str) : Str :=
  trimStartMatchesF pat (s.length + 1) s

/-- Model of `SseResponse::trim(line, res_type)`:
`line.trim_start_matches(res_type).trim().to_string()`. -/
def rustTrim (pat s : Str) : Str :=
  trimWs (trimStartMatches pat s)

/-- Model of Rust `str::parse::<u32>()`: optional leading `+`, then one or
more ASCII digits, value below `2^32`. -/
def parseU32 (s : Str) : Option Nat :=
  let digits := match s with
    | '+' :: rest => rest
    | _ => s
  if digits = [] then none
  else if digits.all Char.isDigit then
    let v := digits.foldl (fun a c => a * 10 + (c.toNat - 48)) 0
    if v < 2 ^ 32 then some v else none
  else none

/-- The wire frames of `sse.rs` (`SseResponse`). -/
inductive SseResponse where
  | Event (s : Str)
  | Data (s : Str)
  | Id (s : Str)
  | Retry (n : Nat)
deriving DecidableEq, Repr

/-- The error enum of `sse.rs` (`SseResponseParseError`).  Only the
`InterruptedData` constructor is ever produced by `from_chunk`; the other
two exist in the source but are never constructed. -/
inductive SseResponseParseError where
  | InvalidFormat (s : Str)
  | InvalidRetry (s : Str)
  | InterruptedData (s : Str)
deriving DecidableEq, Repr

/-- Model of `SseResponse::extract_str`: classify a raw record by prefix.
A `retry:` record whose trimmed value fails `u32` parsing falls through to
`none`, exactly like an unrecognized prefix. -/
def extract_str (line : Str) : Option SseResponse :=
  if ("data:".toList).isPrefixOf line then
    some (.Data (rustTrim "data:".toList line))
  else if ("event:".toList).isPrefixOf line then
    some (.Event (rustTrim "event:".toList line))
  else if ("id:".toList).isPrefixOf line then
    some (.Id (rustTrim "id:".toList line))
  else if ("retry:".toList).isPrefixOf line then
    match parseU32 (rustTrim "retry:".toList line) with
    | some n => some (.Retry n)
    | none => none
  else none

/-- The second segment of `event.split("\ndata: ")`: text up to the next
occurrence of the separator (Rust's split iterator yields segments, not
remainders). -/
def secondSeg (rest : Str) : Str :=
  match breakOnSub nlData rest with
  | none => rest
  | some (p, _) => p

/-- The frames one classified record contributes inside the `from_chunk`
loop: an `Event` whose text contains `"\ndata: "` becomes an `Event` frame
(text before the first occurrence) and a `Data` frame (the second split
segment); anything else is a single frame; `none` means unclassifiable. -/
def lineFrames (line : Str) : Option (List SseResponse) :=
  match extract_str line with
  | none => none
  | some (SseResponse.Event ev) =>
    match breakOnSub nlData ev with
    | none => some [SseResponse.Event ev]
    | some (pre, rest) => some [SseResponse.Event pre, SseResponse.Data (secondSeg rest)]
  | some other => some [other]

/-- The record-processing loop of `SseResponse::from_chunk`: `pushed`
mirrors `for_interrupted_data` (every line is pushed before the empty-line
check), `result` accumulates the emitted frames. -/
def procLines (delim chunk : Str) :
    List Str → List SseResponse → List Str →
    Except SseResponseParseError (List SseResponse)
  | [], result, pushed =>
    match pushed.getLast? with
    | some l => if l = [] then .ok result else .error (.InterruptedData chunk)
    | none => .ok result
  | line :: rest, result, pushed =>
    if line = [] then
      procLines delim chunk rest result (pushed ++ [line])
    else
      match lineFrames line with
      | some fs => procLines delim chunk rest (result ++ fs) (pushed ++ [line])
      | none => .error (.InterruptedData (joinWith delim (pushed ++ [line])))

/-- Model of `SseResponse::from_chunk`: pick the delimiter (`"\r\n\r\n"` if
present anywhere in the chunk, else `"\n\n"`), split, classify each record,
and fail with `InterruptedData` if a record is unclassifiable or the chunk
does not end on a delimiter. -/
def from_chunk (chunk : Str) : Except SseResponseParseError (List SseResponse) :=
  let delim := if hasSub crlf2 chunk then crlf2 else lf2
  procLines delim chunk (splitOnSub delim chunk) [] []

/-- The state of `SseStreamReader`. -/
structure SseStreamReader where
  interrupted_data : Option Str
  call_time : Nat
deriving DecidableEq, Repr

/-- The fresh reader produced by `SseStreamReader::new`. -/
def newReader : SseStreamReader := ⟨none, 0⟩

/-- The stateless part of `maybe_parse`: returns the new buffered tail and
the optional frame batch. -/
def parseStep (chunk : Str) : Option Str × Option (List SseResponse) :=
  match from_chunk chunk with
  | .ok res => (none, some res)
  | .error (.InterruptedData d) => (some d, none)
  | .error _ => (none, none)

/-- Model of `SseStreamReader::maybe_parse`.  `none` models the
`assert!(self.call_time < 10)` panic: when a buffered tail is present the
counter is incremented first and the assertion fires if the incremented
counter is not below 10.  Otherwise the (possibly concatenated) chunk is
parsed; an `InterruptedData` error is buffered, any other error is printed
and dropped. -/
def maybe_parse (r : SseStreamReader) (chunk : Str) :
    Option (SseStreamReader × Option (List SseResponse)) :=
  match r.interrupted_data with
  | some tail =>
    let ct := r.call_time + 1
    if ct < 10 then
      let (i, res) := parseStep (tail ++ chunk)
      some (⟨i, ct⟩, res)
    else none
  | none =>
    let (i, res) := parseStep chunk
    some (⟨i, r.call_time⟩, res)

/-- Drives `maybe_parse` over a list of chunks, concatenating every emitted
frame batch in order; `none` propagates a panic. -/
def runChunks (r : SseStreamReader) (acc : List SseResponse) :
    List Str → Option (SseStreamReader × List SseResponse)
  | [] => some (r, acc)
  | c :: rest =>
    match maybe_parse r c with
    | none => none
    | some (r', none) => runChunks r' acc rest
    | some (r', some fs) => runChunks r' (acc ++ fs) rest

end Cai

namespace Cai

theorem breakOnSub_eq (sep : Str) :
    ∀ (s pre post : Str), breakOnSub sep s = some (pre, post) → s = pre ++ sep ++ post := by
  intro s
  induction s with
  | nil => intro pre post h; simp [breakOnSub] at h
  | cons c rest ih =>
    intro pre post h
    rw [breakOnSub] at h
    split at h
    · rename_i hpre
      simp only [Option.some.injEq, Prod.mk.injEq] at h
      obtain ⟨h1, h2⟩ := h
      have hp : sep <+: (c :: rest) := by
        exact (List.isPrefixOf_iff_prefix).mp hpre
      obtain ⟨t, ht⟩ := hp
      subst h1
      simp only [List.nil_append]
      rw [← ht] at h2 ⊢
      rw [List.drop_left] at h2
      rw [h2]
    · rename_i hnpre
      revert h
      cases hb : breakOnSub sep rest with
      | none => intro h; simp at h
      | some pp =>
        obtain ⟨pre', post'⟩ := pp
        intro h
        simp only [Option.some.injEq, Prod.mk.injEq] at h
        obtain ⟨h1, h2⟩ := h
        subst h2
        have := ih pre' post' hb
        rw [← h1]
        simp [this]

end Cai

namespace Cai

theorem breakOnSub_none_of_head (d : Char) (sep' : Str) :
    ∀ s : Str, d ∉ s → breakOnSub (d :: sep') s = none := by
  intro s
  induction s with
  | nil => intro _; rfl
  | cons c rest ih =>
    intro h
    have hcd : c ≠ d := by
      intro he; exact h (by simp [he])
    have hrest : d ∉ rest := fun hm => h (List.mem_cons_of_mem _ hm)
    rw [breakOnSub]
    have hnp : ((d :: sep').isPrefixOf (c :: rest)) = false := by
      simp [List.isPrefixOf]
      intro he; exact absurd he.symm hcd
    simp [hnp, ih hrest]

theorem breakOnSub_append (d : Char) (sep' : Str) (b : Str) :
    ∀ a : Str, d ∉ a →
      breakOnSub (d :: sep') (a ++ (d :: sep') ++ b) = some (a, b) := by
  intro a
  induction a with
  | nil =>
    intro _
    simp only [List.nil_append]
    rw [breakOnSub.eq_def]
    cases hb : (d :: sep') ++ b with
    | nil => simp at hb
    | cons x xs =>
      rw [← hb]
      have hp : (d :: sep').isPrefixOf ((d :: sep') ++ b) = true := by
        exact List.isPrefixOf_iff_prefix.mpr ⟨b, rfl⟩
      simp only [hb]
      rw [← hb]
      simp [hp, List.drop_left]
  | cons c rest ih =>
    intro h
    have hcd : c ≠ d := by
      intro he; exact h (by simp [he])
    have hrest : d ∉ rest := fun hm => h (List.mem_cons_of_mem _ hm)
    have : (c :: rest) ++ (d :: sep') ++ b = c :: (rest ++ (d :: sep') ++ b) := by simp
    rw [this, breakOnSub]
    have hnp : ((d :: sep').isPrefixOf (c :: (rest ++ (d :: sep') ++ b))) = false := by
      simp [List.isPrefixOf]
      intro he; exact absurd he.symm hcd
    simp only [hnp, Bool.false_eq_true, if_false]
    rw [ih hrest]

theorem breakOnSub_lf2_snoc_nl (s : Str) (h : '\n' ∉ s) :
    breakOnSub lf2 (s ++ ['\n']) = none := by
  induction s with
  | nil => rfl
  | cons c rest ih =>
    have hcd : c ≠ '\n' := by
      intro he; exact h (by simp [he])
    have hrest : '\n' ∉ rest := fun hm => h (List.mem_cons_of_mem _ hm)
    rw [List.cons_append, breakOnSub]
    have hnp : (lf2.isPrefixOf (c :: (rest ++ ['\n']))) = false := by
      simp [lf2, List.isPrefixOf]
      intro he; exact absurd he.symm hcd
    simp [hnp, ih hrest]

end Cai

namespace Cai

theorem breakOnSub_post_lt (sep : Str) (hsep : sep ≠ []) (s pre post : Str)
    (h : breakOnSub sep s = some (pre, post)) : post.length < s.length := by
  have := breakOnSub_eq sep s pre post h
  subst this
  have : 0 < sep.length := List.length_pos.mpr hsep
  simp [List.length_append]
  omega

theorem splitOnSubF_congr (sep : Str) (hsep : sep ≠ []) :
    ∀ f1 : Nat, ∀ s : Str, ∀ f2 : Nat, s.length < f1 → s.length < f2 →
      splitOnSubF sep f1 s = splitOnSubF sep f2 s := by
  intro f1
  induction f1 with
  | zero => intro s f2 h1 _; omega
  | succ n ih =>
    intro s f2 h1 h2
    cases f2 with
    | zero => omega
    | succ m =>
      rw [splitOnSubF, splitOnSubF]
      cases hb : breakOnSub sep s with
      | none => rfl
      | some pp =>
        obtain ⟨pre, post⟩ := pp
        have hlt := breakOnSub_post_lt sep hsep s pre post hb
        simp only
        rw [ih post m (by omega) (by omega)]

theorem splitOnSub_single (sep s : Str) (h : breakOnSub sep s = none) :
    splitOnSub sep s = [s] := by
  rw [splitOnSub, splitOnSubF, h]

theorem splitOnSub_cons (sep : Str) (hsep : sep ≠ []) (s pre post : Str)
    (h : breakOnSub sep s = some (pre, post)) :
    splitOnSub sep s = pre :: splitOnSub sep post := by
  have hlt := breakOnSub_post_lt sep hsep s pre post h
  rw [splitOnSub, splitOnSubF, h, splitOnSub]
  show pre :: splitOnSubF sep s.length post = pre :: splitOnSubF sep (post.length + 1) post
  congr 1
  exact splitOnSubF_congr sep hsep s.length post (post.length + 1) hlt (by omega)

end Cai

namespace Cai

/-- A strictly well-formed wire payload: the concatenation of records, each
followed by the blank-line delimiter. -/
def encodeRecords : List Str → Str
  | [] => []
  | r :: rs => r ++ lf2 ++ encodeRecords rs

/-- A well-formed record per the spec's wire grammar: nonempty, a single
line (no LF, no CR), classifiable by a recognized prefix. -/
def GoodRecord (r : Str) : Prop :=
  r ≠ [] ∧ '\n' ∉ r ∧ '\r' ∉ r ∧ (extract_str r).isSome = true

instance (r : Str) : Decidable (GoodRecord r) := by
  unfold GoodRecord; infer_instance

/-- The frames the one-pass parse of an encoded record list produces. -/
def framesOf : List Str → List SseResponse
  | [] => []
  | r :: rs => (lineFrames r).getD [] ++ framesOf rs

theorem encodeRecords_append (a b : List Str) :
    encodeRecords (a ++ b) = encodeRecords a ++ encodeRecords b := by
  induction a with
  | nil => simp [encodeRecords]
  | cons r rs ih => simp [encodeRecords, ih]

theorem framesOf_append (a b : List Str) :
    framesOf (a ++ b) = framesOf a ++ framesOf b := by
  induction a with
  | nil => simp [framesOf]
  | cons r rs ih => simp [framesOf, ih]

theorem mem_encodeRecords {c : Char} {rs : List Str} (h : c ∈ encodeRecords rs) :
    (∃ r ∈ rs, c ∈ r) ∨ c ∈ lf2 := by
  induction rs with
  | nil => simp [encodeRecords] at h
  | cons r rest ih =>
    simp only [encodeRecords, List.append_assoc, List.mem_append] at h
    rcases h with h | h | h
    · exact Or.inl ⟨r, by simp, h⟩
    · exact Or.inr h
    · rcases ih h with ⟨r', hr', hc⟩ | hlf
      · exact Or.inl ⟨r', by simp [hr'], hc⟩
      · exact Or.inr hlf

theorem joinTail_snoc (rs : List Str) (t : Str) :
    joinTail lf2 (rs ++ [t]) = lf2 ++ encodeRecords rs ++ t := by
  induction rs with
  | nil => simp [joinTail, encodeRecords]
  | cons r rest ih => simp [joinTail, encodeRecords, ih]

theorem joinWith_snoc (rs : List Str) (t : Str) :
    joinWith lf2 (rs ++ [t]) = encodeRecords rs ++ t := by
  cases rs with
  | nil => simp [joinWith, joinTail, encodeRecords]
  | cons r rest =>
    rw [List.cons_append, joinWith, joinTail_snoc]
    simp [encodeRecords]

theorem splitOnSub_encode (rs : List Str) (t : Str)
    (hrs : ∀ r ∈ rs, '\n' ∉ r) (ht : breakOnSub lf2 t = none) :
    splitOnSub lf2 (encodeRecords rs ++ t) = rs ++ [t] := by
  induction rs with
  | nil =>
    simp only [encodeRecords, List.nil_append]
    exact splitOnSub_single lf2 t ht
  | cons r rest ih =>
    have hr : '\n' ∉ r := hrs r (by simp)
    have hrest : ∀ r' ∈ rest, '\n' ∉ r' := fun r' h' => hrs r' (by simp [h'])
    have harr : encodeRecords (r :: rest) ++ t = r ++ lf2 ++ (encodeRecords rest ++ t) := by
      simp [encodeRecords]
    rw [harr]
    have hbr : breakOnSub lf2 (r ++ lf2 ++ (encodeRecords rest ++ t)) =
        some (r, encodeRecords rest ++ t) := by
      have := breakOnSub_append '\n' ['\n'] (encodeRecords rest ++ t) r hr
      simpa [lf2] using this
    rw [splitOnSub_cons lf2 (by simp [lf2]) _ _ _ hbr, ih hrest]
    rfl

end Cai

namespace Cai

theorem mem_trimStartMatchesF (pat : Str) :
    ∀ (fuel : Nat) (s : Str) (c : Char), c ∈ trimStartMatchesF pat fuel s → c ∈ s := by
  intro fuel
  induction fuel with
  | zero => intro s c h; exact h
  | succ n ih =>
    intro s c h
    rw [trimStartMatchesF] at h
    split at h
    · exact List.mem_of_mem_drop (ih _ _ h)
    · exact h

theorem mem_trimWs {s : Str} {c : Char} (h : c ∈ trimWs s) : c ∈ s := by
  unfold trimWs at h
  rw [List.mem_reverse] at h
  have h1 := (List.dropWhile_sublist (l := (s.dropWhile isWsChar).reverse) isWsChar).mem h
  rw [List.mem_reverse] at h1
  exact (List.dropWhile_sublist isWsChar).mem h1

theorem mem_rustTrim {pat s : Str} {c : Char} (h : c ∈ rustTrim pat s) : c ∈ s := by
  exact mem_trimStartMatchesF pat _ s c (mem_trimWs h)

theorem extract_str_event_sub {r ev : Str} (h : extract_str r = some (.Event ev)) :
    ∀ c ∈ ev, c ∈ r := by
  unfold extract_str at h
  split at h
  · simp at h
  · split at h
    · simp only [Option.some.injEq, SseResponse.Event.injEq] at h
      subst h
      intro c hc
      exact mem_rustTrim hc
    · split at h
      · simp at h
      · split at h
        · split at h <;> simp at h
        · simp at h

theorem lineFrames_good {r : Str} (h : GoodRecord r) :
    ∃ f : SseResponse, lineFrames r = some [f] := by
  obtain ⟨hne, hlf, hcr, hsome⟩ := h
  cases hex : extract_str r with
  | none => rw [hex] at hsome; simp at hsome
  | some f =>
    cases f with
    | Event ev =>
      have hsub := extract_str_event_sub hex
      have hnl : '\n' ∉ ev := fun hm => hlf (hsub _ hm)
      have hb : breakOnSub nlData ev = none := by
        have : nlData = '\n' :: "data: ".toList := by rfl
        rw [this]
        exact breakOnSub_none_of_head '\n' _ ev hnl
      exact ⟨.Event ev, by rw [lineFrames, hex]; simp only; rw [hb]⟩
    | Data s => exact ⟨.Data s, by rw [lineFrames, hex]⟩
    | Id s => exact ⟨.Id s, by rw [lineFrames, hex]⟩
    | Retry n => exact ⟨.Retry n, by rw [lineFrames, hex]⟩

end Cai

namespace Cai

theorem procLines_ok (delim chunk : Str) :
    ∀ (rs : List Str) (result : List SseResponse) (pushed : List Str),
      (∀ r ∈ rs, GoodRecord r) →
      procLines delim chunk (rs ++ [[]]) result pushed = .ok (result ++ framesOf rs) := by
  intro rs
  induction rs with
  | nil =>
    intro result pushed _
    rw [List.nil_append, procLines]
    simp only [if_pos rfl]
    rw [procLines, List.getLast?_concat]
    simp [framesOf]
  | cons r rest ih =>
    intro result pushed hgood
    have hr := hgood r (by simp)
    obtain ⟨f, hf⟩ := lineFrames_good hr
    rw [List.cons_append, procLines]
    simp only [if_neg hr.1, hf]
    rw [ih (result ++ [f]) (pushed ++ [r]) (fun x hx => hgood x (by simp [hx]))]
    simp [framesOf, hf]

theorem procLines_interrupted_none (delim chunk : Str) (t : Str)
    (htne : t ≠ []) (htf : lineFrames t = none) :
    ∀ (rs : List Str) (result : List SseResponse) (pushed : List Str),
      (∀ r ∈ rs, GoodRecord r) →
      procLines delim chunk (rs ++ [t]) result pushed =
        .error (.InterruptedData (joinWith delim (pushed ++ rs ++ [t]))) := by
  intro rs
  induction rs with
  | nil =>
    intro result pushed _
    rw [List.nil_append, procLines]
    simp [if_neg htne, htf]
  | cons r rest ih =>
    intro result pushed hgood
    have hr := hgood r (by simp)
    obtain ⟨f, hf⟩ := lineFrames_good hr
    rw [List.cons_append, procLines]
    simp only [if_neg hr.1, hf]
    rw [ih (result ++ [f]) (pushed ++ [r]) (fun x hx => hgood x (by simp [hx]))]
    simp

theorem procLines_interrupted_some (delim chunk : Str) (t : Str) (tfs : List SseResponse)
    (htne : t ≠ []) (htf : lineFrames t = some tfs) :
    ∀ (rs : List Str) (result : List SseResponse) (pushed : List Str),
      (∀ r ∈ rs, GoodRecord r) →
      procLines delim chunk (rs ++ [t]) result pushed =
        .error (.InterruptedData chunk) := by
  intro rs
  induction rs with
  | nil =>
    intro result pushed _
    rw [List.nil_append, procLines]
    simp only [if_neg htne, htf]
    rw [procLines, List.getLast?_concat]
    simp [if_neg htne]
  | cons r rest ih =>
    intro result pushed hgood
    have hr := hgood r (by simp)
    obtain ⟨f, hf⟩ := lineFrames_good hr
    rw [List.cons_append, procLines]
    simp only [if_neg hr.1, hf]
    exact ih (result ++ [f]) (pushed ++ [r]) (fun x hx => hgood x (by simp [hx]))

end Cai

namespace Cai

theorem hasSub_crlf2_false {s : Str} (h : '\r' ∉ s) : hasSub crlf2 s = false := by
  unfold hasSub
  have : crlf2 = '\r' :: ['\n', '\r', '\n'] := rfl
  rw [this, breakOnSub_none_of_head '\r' _ s h]
  rfl

theorem cr_not_mem_encode {rs : List Str} (h : ∀ r ∈ rs, GoodRecord r) :
    '\r' ∉ encodeRecords rs := by
  intro hm
  rcases mem_encodeRecords hm with ⟨r, hr, hc⟩ | hlf
  · exact (h r hr).2.2.1 hc
  · simp [lf2] at hlf

/-- One-pass parse of a strictly well-formed payload: all frames, in order. -/
theorem from_chunk_encode (rs : List Str) (h : ∀ r ∈ rs, GoodRecord r) :
    from_chunk (encodeRecords rs) = .ok (framesOf rs) := by
  unfold from_chunk
  rw [hasSub_crlf2_false (cr_not_mem_encode h)]
  simp only [Bool.false_eq_true, if_false]
  have henc : encodeRecords rs = encodeRecords rs ++ [] := by simp
  rw [henc, splitOnSub_encode rs [] (fun r hr => (h r hr).2.1) rfl]
  have := procLines_ok lf2 (encodeRecords rs ++ []) rs [] [] h
  simpa using this

/-- Mid-record split of a strictly well-formed payload: `from_chunk` fails
with `InterruptedData` carrying the entire chunk. -/
theorem from_chunk_encode_tail (rs : List Str) (t : Str)
    (h : ∀ r ∈ rs, GoodRecord r)
    (htne : t ≠ []) (htb : breakOnSub lf2 t = none) (htcr : '\r' ∉ t) :
    from_chunk (encodeRecords rs ++ t) = .error (.InterruptedData (encodeRecords rs ++ t)) := by
  unfold from_chunk
  have hcr : '\r' ∉ encodeRecords rs ++ t := by
    intro hm
    rcases List.mem_append.mp hm with hm1 | hm2
    · exact cr_not_mem_encode h hm1
    · exact htcr hm2
  rw [hasSub_crlf2_false hcr]
  simp only [Bool.false_eq_true, if_false]
  rw [splitOnSub_encode rs t (fun r hr => (h r hr).2.1) htb]
  cases htf : lineFrames t with
  | none =>
    rw [procLines_interrupted_none lf2 _ t htne htf rs [] [] h]
    rw [List.nil_append, joinWith_snoc]
  | some tfs =>
    rw [procLines_interrupted_some lf2 _ t tfs htne htf rs [] [] h]

end Cai

namespace Cai

theorem breakOnSub_good_tail {r t : Str} (hr : GoodRecord r)
    (ht : ∃ i, 0 < i ∧ i < r.length + 2 ∧ t = (r ++ lf2).take i) :
    breakOnSub lf2 t = none := by
  obtain ⟨i, hpos, hlt, hteq⟩ := ht
  rcases Nat.lt_or_ge i (r.length + 1) with hle | hgt
  · -- i ≤ r.length : t is a prefix of r
    have hle' : i ≤ r.length := by omega
    have : t = r.take i := by
      rw [hteq, List.take_append_eq_append_take, Nat.sub_eq_zero_of_le hle', List.take_zero,
        List.append_nil]
    rw [this]
    have hnl : '\n' ∉ r.take i := fun hm => hr.2.1 ((List.take_sublist i r).mem hm)
    have : lf2 = '\n' :: ['\n'] := rfl
    rw [this]
    exact breakOnSub_none_of_head '\n' _ _ hnl
  · -- i = r.length + 1 : t = r ++ ['\n']
    have hieq : i = r.length + 1 := by omega
    have : t = r ++ ['\n'] := by
      rw [hteq, hieq, List.take_append_eq_append_take]
      have h1 : r.take (r.length + 1) = r := List.take_of_length_le (by omega)
      have h2 : r.length + 1 - r.length = 1 := by omega
      rw [h1, h2]
      rfl
    rw [this]
    exact breakOnSub_lf2_snoc_nl r hr.2.1

theorem split_cases (rs : List Str) (hgood : ∀ r ∈ rs, GoodRecord r) :
    ∀ i : Nat,
      (∃ rs1 rs2, rs = rs1 ++ rs2 ∧
        (encodeRecords rs).take i = encodeRecords rs1 ∧
        (encodeRecords rs).drop i = encodeRecords rs2) ∨
      (∃ rs1 r rs2 t u, rs = rs1 ++ r :: rs2 ∧ t ≠ [] ∧ breakOnSub lf2 t = none ∧
        t ++ u = r ++ lf2 ∧
        (encodeRecords rs).take i = encodeRecords rs1 ++ t ∧
        (encodeRecords rs).drop i = u ++ encodeRecords rs2) := by
  induction rs with
  | nil =>
    intro i
    left
    exact ⟨[], [], rfl, by simp [encodeRecords], by simp [encodeRecords]⟩
  | cons r rest ih =>
    intro i
    have hr : GoodRecord r := hgood r (by simp)
    have hrest : ∀ x ∈ rest, GoodRecord x := fun x hx => hgood x (by simp [hx])
    have hL : (r ++ lf2).length = r.length + 2 := by simp [lf2]
    have henc : encodeRecords (r :: rest) = (r ++ lf2) ++ encodeRecords rest := by
      simp [encodeRecords]
    rcases Nat.eq_zero_or_pos i with hz | hpos
    · left
      subst hz
      exact ⟨[], r :: rest, rfl, by simp [encodeRecords], by simp⟩
    rcases Nat.lt_or_ge i (r.length + 2) with hlt | hge
    · -- split strictly inside r ++ lf2
      right
      refine ⟨[], r, rest, (r ++ lf2).take i, (r ++ lf2).drop i, rfl, ?_, ?_, ?_, ?_, ?_⟩
      · intro hnil
        have := congrArg List.length hnil
        simp [List.length_take, hL] at this
        omega
      · exact breakOnSub_good_tail hr ⟨i, hpos, hlt, rfl⟩
      · exact List.take_append_drop i (r ++ lf2)
      · rw [henc, List.take_append_eq_append_take, Nat.sub_eq_zero_of_le (by omega : i ≤ (r ++ lf2).length),
          List.take_zero, List.append_nil]
        simp [encodeRecords]
      · rw [henc, List.drop_append_eq_append_drop, Nat.sub_eq_zero_of_le (by omega : i ≤ (r ++ lf2).length),
          List.drop_zero]
    · -- split at or after the end of r ++ lf2 : recurse
      have htake : (encodeRecords (r :: rest)).take i =
          (r ++ lf2) ++ (encodeRecords rest).take (i - (r.length + 2)) := by
        rw [henc, List.take_append_eq_append_take,
          List.take_of_length_le (by omega : (r ++ lf2).length ≤ i), hL]
      have hdrop : (encodeRecords (r :: rest)).drop i =
          (encodeRecords rest).drop (i - (r.length + 2)) := by
        rw [henc, List.drop_append_eq_append_drop,
          List.drop_eq_nil_of_le (by omega : (r ++ lf2).length ≤ i), hL, List.nil_append]
      rcases ih hrest (i - (r.length + 2)) with ⟨rs1, rs2, heq, ht, hd⟩ |
        ⟨rs1, r', rs2, t, u, heq, htne, htb, htu, ht, hd⟩
      · left
        refine ⟨r :: rs1, rs2, by simp [heq], ?_, ?_⟩
        · rw [htake, ht]
          simp [encodeRecords]
        · rw [hdrop, hd]
      · right
        refine ⟨r :: rs1, r', rs2, t, u, by simp [heq], htne, htb, htu, ?_, ?_⟩
        · rw [htake, ht]
          simp [encodeRecords]
        · rw [hdrop, hd]

end Cai

namespace Cai

theorem maybe_parse_fresh_ok {ct : Nat} {c : Str} {fs : List SseResponse}
    (h : from_chunk c = .ok fs) :
    maybe_parse ⟨none, ct⟩ c = some (⟨none, ct⟩, some fs) := by
  simp [maybe_parse, parseStep, h]

theorem maybe_parse_fresh_interrupted {ct : Nat} {c d : Str}
    (h : from_chunk c = .error (.InterruptedData d)) :
    maybe_parse ⟨none, ct⟩ c = some (⟨some d, ct⟩, none) := by
  simp [maybe_parse, parseStep, h]

theorem maybe_parse_tail_ok {ct : Nat} {tail c : Str} {fs : List SseResponse}
    (hct : ct + 1 < 10) (h : from_chunk (tail ++ c) = .ok fs) :
    maybe_parse ⟨some tail, ct⟩ c = some (⟨none, ct + 1⟩, some fs) := by
  simp [maybe_parse, parseStep, hct, h]

theorem fragmentation_invariance_aux (rs : List Str) (h : ∀ r ∈ rs, GoodRecord r) (i : Nat) :
    ∃ st : SseStreamReader,
      runChunks newReader []
        [(encodeRecords rs).take i, (encodeRecords rs).drop i] = some (st, framesOf rs) := by
  rcases split_cases rs h i with ⟨rs1, rs2, heq, ht, hd⟩ |
    ⟨rs1, r, rs2, t, u, heq, htne, htb, htu, ht, hd⟩
  · -- the boundary falls between two records
    have h1 : ∀ x ∈ rs1, GoodRecord x := fun x hx => h x (by simp [heq, hx])
    have h2 : ∀ x ∈ rs2, GoodRecord x := fun x hx => h x (by simp [heq, hx])
    refine ⟨newReader, ?_⟩
    simp only [runChunks, ht, hd, newReader,
      maybe_parse_fresh_ok (from_chunk_encode rs1 h1),
      maybe_parse_fresh_ok (from_chunk_encode rs2 h2)]
    simp [heq, framesOf_append]
  · -- the boundary falls inside a record (or its trailing delimiter)
    have h1 : ∀ x ∈ rs1, GoodRecord x := fun x hx => h x (by simp [heq, hx])
    have hrg : GoodRecord r := h r (by simp [heq])
    have htcr : '\r' ∉ t := by
      intro hm
      have : '\r' ∈ r ++ lf2 := by rw [← htu]; exact List.mem_append_left _ hm
      rcases List.mem_append.mp this with h' | h'
      · exact hrg.2.2.1 h'
      · simp [lf2] at h'
    refine ⟨⟨none, 1⟩, ?_⟩
    have hconcat : (encodeRecords rs1 ++ t) ++ (encodeRecords rs).drop i = encodeRecords rs := by
      rw [hd, heq]
      have ha : rs1 ++ r :: rs2 = rs1 ++ [r] ++ rs2 := by simp
      rw [ha, encodeRecords_append, encodeRecords_append]
      have hb : encodeRecords [r] = r ++ lf2 := by simp [encodeRecords]
      rw [hb, ← htu]
      simp
    have hstep : maybe_parse ⟨some (encodeRecords rs1 ++ t), 0⟩ ((encodeRecords rs).drop i) =
        some (⟨none, 1⟩, some (framesOf rs)) := by
      exact maybe_parse_tail_ok (show 0 + 1 < 10 by omega)
        (by rw [hconcat]; exact from_chunk_encode rs h)
    simp only [runChunks, ht, newReader,
      maybe_parse_fresh_interrupted (from_chunk_encode_tail rs1 t h1 htne htb htcr), hstep]
    simp

end Cai

namespace Cai

theorem procLines_error_shape (delim chunk : Str) :
    ∀ (lines : List Str) (result : List SseResponse) (pushed : List Str)
      (e : SseResponseParseError),
      procLines delim chunk lines result pushed = .error e →
      ∃ d, e = .InterruptedData d := by
  intro lines
  induction lines with
  | nil =>
    intro result pushed e h
    rw [procLines] at h
    revert h
    cases pushed.getLast? with
    | none => intro h; simp at h
    | some l =>
      simp only
      split
      · intro h; simp at h
      · intro h
        simp only [Except.error.injEq] at h
        exact ⟨chunk, h.symm⟩
  | cons line rest ih =>
    intro result pushed e h
    rw [procLines] at h
    split at h
    · exact ih _ _ _ h
    · revert h
      cases lineFrames line with
      | none =>
        intro h
        simp only [Except.error.injEq] at h
        exact ⟨_, h.symm⟩
      | some fs =>
        intro h
        exact ih _ _ _ h

end Cai

namespace Cai

/-- C1 (amended, corrected): for a strictly well-formed wire payload — a
sequence of nonempty single-line records with recognized prefixes, each
terminated by the blank-line delimiter — parsing it as one chunk and
feeding it split at any single byte boundary into two chunks through the
Stream Reassembler produce the same frame sequence, with the same length
and order.  (The original "two or more chunks" fails: enough consecutive
incomplete fragments trip the `assert!(call_time < 10)` panic, see the
counterexample.) -/
theorem fragmentation_invariance (rs : List Str) (h : ∀ r ∈ rs, GoodRecord r) (i : Nat) :
    from_chunk (encodeRecords rs) = .ok (framesOf rs) ∧
    ∃ st : SseStreamReader,
      runChunks newReader [] [(encodeRecords rs).take i, (encodeRecords rs).drop i] =
        some (st, framesOf rs) :=
  ⟨from_chunk_encode rs h, fragmentation_invariance_aux rs h i⟩

/-- C1 witness: the single-record payload "data: hi\n\n" split after byte 3
reassembles to the same one-frame sequence as the one-pass parse. -/
theorem fragmentation_invariance_witness :
    from_chunk (encodeRecords ["data: hi".toList]) = .ok (framesOf ["data: hi".toList]) ∧
    ∃ st : SseStreamReader,
      runChunks newReader []
        [(encodeRecords ["data: hi".toList]).take 3,
         (encodeRecords ["data: hi".toList]).drop 3] =
        some (st, framesOf ["data: hi".toList]) :=
  fragmentation_invariance ["data: hi".toList] (by decide) 3

/-- C1 counterexample: the well-formed payload "data: hello\n\n" parses in
one pass to a single Data frame, but split at every byte boundary into its
13 single-character chunks, the reassembler's `assert!(call_time < 10)`
fires (modelled by `none`): the claim's "two or more chunks" fails. -/
theorem fragmentation_many_chunks_counter :
    from_chunk ("data: hello\n\n".toList) = .ok [SseResponse.Data ("hello".toList)] ∧
    runChunks newReader [] (("data: hello\n\n".toList).map fun c => [c]) = none :=
  ⟨rfl, rfl⟩

/-- C2 (amended, corrected): a record that cannot be classified by a known
prefix makes `from_chunk` fail with the same `InterruptedData` marker used
for incomplete chunks (every `from_chunk` error is `InterruptedData`), and
the Stream Reassembler treats it exactly like an incomplete boundary split:
it buffers the data and yields no frames — the stream does not fail. -/
theorem unclassifiable_is_interrupted :
    (∀ (chunk : Str) (e : SseResponseParseError),
      from_chunk chunk = .error e → ∃ d, e = .InterruptedData d) ∧
    (∀ (ct : Nat) (chunk d : Str),
      from_chunk chunk = .error (.InterruptedData d) →
      maybe_parse ⟨none, ct⟩ chunk = some (⟨some d, ct⟩, none)) := by
  constructor
  · intro chunk e h
    unfold from_chunk at h
    exact procLines_error_shape _ _ _ _ _ _ h
  · intro ct chunk d h
    exact maybe_parse_fresh_interrupted h

/-- C2 witness: the unknown-prefix chunk "foo: bar\n\n" is buffered by the
reassembler as interrupted data and yields no frames. -/
theorem unclassifiable_is_interrupted_witness :
    maybe_parse ⟨none, 0⟩ ("foo: bar\n\n".toList) =
      some (⟨some ("foo: bar".toList), 0⟩, none) :=
  unclassifiable_is_interrupted.2 0 _ _ (by rfl)

/-- C2 counterexample: for the unknown-prefix record "foo: bar" the parse
result is `InterruptedData` — the very marker the claim says it must be
distinct from — and `maybe_parse` buffers it and continues (returns a
successor state, not a failure): the stream does not end in Failed. -/
theorem unclassifiable_counter :
    from_chunk ("foo: bar\n\n".toList) = .error (.InterruptedData ("foo: bar".toList)) ∧
    maybe_parse newReader ("foo: bar\n\n".toList) =
      some (⟨some ("foo: bar".toList), 0⟩, none) :=
  ⟨rfl, rfl⟩

/-- C4: evaluating the reassembler at a stream whose first chunk is the
record fragment "data: x" followed by ten more fragments "y" that never
complete the record: on the 10th tail concatenation the incremented
counter reaches 10 and `assert!(self.call_time < 10)` fires — the model's
panic outcome `none`, not a recoverable "reassembly limit exceeded" error
value returned to the caller. -/
theorem reassembly_bound_panics :
    runChunks newReader [] ("data: x".toList :: List.replicate 10 ("y".toList)) = none :=
  rfl

/-- C6 (amended, corrected): a classified `Event` record whose text
contains `"\ndata: "` yields exactly two frames — an `Event` frame with the
text before the first occurrence, then a `Data` frame holding the second
split segment, i.e. the text after the first occurrence only up to the
next occurrence of the separator (text from a second occurrence onward is
dropped, not kept in the `Data` frame). -/
theorem event_data_split (line ev pre rest : Str)
    (h1 : extract_str line = some (.Event ev))
    (h2 : breakOnSub nlData ev = some (pre, rest)) :
    lineFrames line = some [.Event pre, .Data (secondSeg rest)] := by
  rw [lineFrames, h1]
  simp only
  rw [h2]

/-- C6 witness: the record "event: a\ndata: b" yields the two frames
Event "a" and Data "b". -/
theorem event_data_split_witness :
    lineFrames ("event: a\ndata: b".toList) =
      some [.Event ("a".toList), .Data ("b".toList)] :=
  event_data_split ("event: a\ndata: b".toList) ("a\ndata: b".toList)
    ("a".toList) ("b".toList) (by rfl) (by rfl)

/-- C6 counterexample: with a second separator occurrence the `Data` frame
holds only "b" — the trailing "\ndata: c" is dropped, contradicting the
claim that later occurrences remain in the Data frame's text. -/
theorem event_data_split_counter :
    from_chunk ("event: a\ndata: b\ndata: c\n\n".toList) =
      .ok [SseResponse.Event ("a".toList), SseResponse.Data ("b".toList)] :=
  rfl

end Cai

namespace Cai

/-- C7 (amended, corrected): a single-line `retry:` record whose value
fails to parse as a non-negative integer is unclassifiable
(`extract_str` returns `none`), so a chunk carrying it makes `from_chunk`
abort with `InterruptedData` at that record: the record is not silently
dropped and the chunk's frames are not emitted. -/
theorem retry_unparsable_interrupts (line : Str)
    (h1 : ("retry:".toList).isPrefixOf line = true)
    (h2 : parseU32 (rustTrim "retry:".toList line) = none)
    (h3 : '\n' ∉ line) (h4 : '\r' ∉ line) :
    extract_str line = none ∧
    from_chunk (line ++ lf2) = .error (.InterruptedData line) := by
  have hp : ("retry:".toList) <+: line := List.isPrefixOf_iff_prefix.mp h1
  obtain ⟨restl, hrest⟩ := hp
  have hline : line = 'r' :: ("etry:".toList ++ restl) := by rw [← hrest]; rfl
  have hd : (("data:".toList).isPrefixOf line) = false := by rw [hline]; rfl
  have he : (("event:".toList).isPrefixOf line) = false := by rw [hline]; rfl
  have hi : (("id:".toList).isPrefixOf line) = false := by rw [hline]; rfl
  have hex : extract_str line = none := by
    unfold extract_str
    rw [hd, he, hi, h1, h2]
    simp
  refine ⟨hex, ?_⟩
  have hnl : lineFrames line = none := by rw [lineFrames, hex]
  have hne : line ≠ [] := by rw [hline]; simp
  have hcr2 : '\r' ∉ line ++ lf2 := by
    intro hm
    rcases List.mem_append.mp hm with hm | hm
    · exact h4 hm
    · simp [lf2] at hm
  unfold from_chunk
  rw [hasSub_crlf2_false hcr2]
  simp only [Bool.false_eq_true, if_false]
  have hsplit : splitOnSub lf2 (line ++ lf2) = [line, []] := by
    have h5 : encodeRecords [line] ++ [] = line ++ lf2 := by simp [encodeRecords]
    rw [← h5, splitOnSub_encode [line] [] (by simpa using h3) rfl]
    rfl
  rw [hsplit, procLines]
  simp [if_neg hne, hnl, joinWith, joinTail]

/-- C7 witness: the record "retry: abc" is unclassifiable and interrupts
the chunk "retry: abc\n\n". -/
theorem retry_unparsable_witness :
    extract_str ("retry: abc".toList) = none ∧
    from_chunk ("retry: abc".toList ++ lf2) =
      .error (.InterruptedData ("retry: abc".toList)) :=
  retry_unparsable_interrupts ("retry: abc".toList) (by rfl) (by rfl)
    (by decide) (by decide)

/-- C7 counterexample: the chunk "retry: abc\n\ndata: x\n\n" contains a
retry record with an unparsable value followed by a well-formed data
record; `from_chunk` reports an `InterruptedData` error and emits no frame
at all — the record is not dropped-and-skipped and the other frames of the
chunk are lost, contradicting the claim. -/
theorem retry_unparsable_counter :
    from_chunk ("retry: abc\n\ndata: x\n\n".toList) =
      .error (.InterruptedData ("retry: abc".toList)) :=
  rfl

/-- C10 (confirmed): the reassembler's `call_time` counter is incremented
exactly on tail concatenations and never reset by a successful parse (a
call with no buffered tail leaves it unchanged no matter the outcome), and
once it has reached 9 any further call that arrives with a buffered tail —
i.e. any later fragmented record — trips the `assert!(call_time < 10)`
bound (panic, modelled `none`), regardless of what was parsed in between.
-/
theorem call_time_cumulative :
    (∀ (ct : Nat) (chunk : Str) (out : SseStreamReader × Option (List SseResponse)),
      maybe_parse ⟨none, ct⟩ chunk = some out → out.1.call_time = ct) ∧
    (∀ (tail : Str) (ct : Nat) (chunk : Str)
      (out : SseStreamReader × Option (List SseResponse)),
      maybe_parse ⟨some tail, ct⟩ chunk = some out → out.1.call_time = ct + 1) ∧
    (∀ (tail : Str) (ct : Nat) (chunk : Str), 9 ≤ ct →
      maybe_parse ⟨some tail, ct⟩ chunk = none) := by
  refine ⟨?_, ?_, ?_⟩
  · intro ct chunk out h
    cases hps : parseStep chunk with
    | mk i res =>
      simp [maybe_parse, hps] at h
      rw [← h]
  · intro tail ct chunk out h
    by_cases hlt : ct + 1 < 10
    · cases hps : parseStep (tail ++ chunk) with
      | mk i res =>
        simp [maybe_parse, hps, hlt] at h
        rw [← h]
    · simp [maybe_parse, hlt] at h
  · intro tail ct chunk h
    have hnlt : ¬ (ct + 1 < 10) := by omega
    simp [maybe_parse, hnlt]

/-- C10 witness: with the counter already at 9, a fragmented record
arriving with a buffered tail panics. -/
theorem call_time_cumulative_witness :
    maybe_parse ⟨some ("x".toList), 9⟩ ("y".toList) = none :=
  call_time_cumulative.2.2 ("x".toList) 9 ("y".toList) (by decide)

end Cai

namespace Cai

/-- A continuation byte of a UTF-8 sequence. -/
def isCont (b : Nat) : Bool := 0x80 ≤ b && b ≤ 0xBF

/-- Model of Rust `std::str::from_utf8`: decodes a byte sequence to
characters, rejecting invalid, overlong and surrogate encodings. -/
def utf8Decode : List Nat → Option (List Char)
  | [] => some []
  | b :: rest =>
    if b ≤ 0x7F then
      match utf8Decode rest with
      | some cs => some (Char.ofNat b :: cs)
      | none => none
    else if 0xC2 ≤ b && b ≤ 0xDF then
      match rest with
      | b1 :: rest1 =>
        if isCont b1 then
          match utf8Decode rest1 with
          | some cs => some (Char.ofNat ((b - 0xC0) * 0x40 + (b1 - 0x80)) :: cs)
          | none => none
        else none
      | [] => none
    else if 0xE0 ≤ b && b ≤ 0xEF then
      match rest with
      | b1 :: b2 :: rest2 =>
        if isCont b1 && isCont b2 && (decide (b ≠ 0xE0) || decide (0xA0 ≤ b1)) &&
            (decide (b ≠ 0xED) || decide (b1 ≤ 0x9F)) then
          match utf8Decode rest2 with
          | some cs =>
            some (Char.ofNat ((b - 0xE0) * 0x1000 + (b1 - 0x80) * 0x40 + (b2 - 0x80)) :: cs)
          | none => none
        else none
      | _ => none
    else if 0xF0 ≤ b && b ≤ 0xF4 then
      match rest with
      | b1 :: b2 :: b3 :: rest3 =>
        if isCont b1 && isCont b2 && isCont b3 && (decide (b ≠ 0xF0) || decide (0x90 ≤ b1)) &&
            (decide (b ≠ 0xF4) || decide (b1 ≤ 0x8F)) then
          match utf8Decode rest3 with
          | some cs =>
            some (Char.ofNat ((b - 0xF0) * 0x40000 + (b1 - 0x80) * 0x1000 +
              (b2 - 0x80) * 0x40 + (b3 - 0x80)) :: cs)
          | none => none
        else none
      | _ => none
    else none

/-- The ASCII bytes of a string (convenience for concrete transport chunks). -/
def asciiBytes (s : String) : List Nat := s.toList.map Char.toNat

/-- Outcome of one whole streamed request in `Response::handle_stream`:
normal completion, a propagated error (`Err` return), or the reassembler
assertion panic. -/
inductive StreamRes where
  | ok
  | failed
  | panicked
deriving DecidableEq, Repr

/-- The `for s in responses { handler.handle(s).await? }` loop body of the
streaming functions: deliver each frame to the handler, stopping at the
first error. -/
def deliverAll (f : SseResponse → Except Unit Unit) :
    List SseResponse → Except Unit Unit
  | [] => .ok ()
  | s :: rest =>
    match f s with
    | .ok _ => deliverAll f rest
    | .error e => .error e

/-- Model of `Response::handle_stream` over a list of transport byte
chunks: a chunk that is not valid UTF-8 is printed and skipped (the loop
continues); otherwise the chunk goes through the reassembler and every
returned frame is delivered to the handler, whose failure is fatal. -/
def handle_stream (f : SseResponse → Except Unit Unit) :
    SseStreamReader → List (List Nat) → StreamRes
  | _, [] => .ok
  | r, bytes :: rest =>
    match utf8Decode bytes with
    | none => handle_stream f r rest
    | some s =>
      match maybe_parse r s with
      | none => .panicked
      | some (r', none) => handle_stream f r' rest
      | some (r', some frames) =>
        match deliverAll f frames with
        | .ok _ => handle_stream f r' rest
        | .error _ => .failed

end Cai

namespace Cai

/-- C8 (amended, corrected): a transport chunk whose bytes are not valid
UTF-8 is not fatal: `handle_stream` prints the decode error, abandons only
that chunk, and continues with the remaining chunks exactly as if the bad
chunk had not arrived; the request does not end in Failed because of it. -/
theorem invalid_utf8_skipped (f : SseResponse → Except Unit Unit)
    (r : SseStreamReader) (bytes : List Nat) (rest : List (List Nat))
    (h : utf8Decode bytes = none) :
    handle_stream f r (bytes :: rest) = handle_stream f r rest := by
  rw [handle_stream, h]

/-- C8 witness: the invalid byte 0xFF is skipped and the stream continues
with the next chunk. -/
theorem invalid_utf8_skipped_witness :
    handle_stream (fun _ => Except.ok ()) newReader
        [[0xFF], asciiBytes "data: x\n\n"] =
      handle_stream (fun _ => Except.ok ()) newReader [asciiBytes "data: x\n\n"] :=
  invalid_utf8_skipped (fun _ => Except.ok ()) newReader [0xFF]
    [asciiBytes "data: x\n\n"] (by rfl)

/-- C8 counterexample: after the non-UTF-8 chunk [0xFF] the stream keeps
running — the request completes Ok with an accepting handler, and with a
rejecting handler the *later* chunk's frame still reaches the handler
(whose error fails the stream), so further chunks are processed,
contradicting the claim that the stream ends in Failed with no further
chunks processed. -/
theorem invalid_utf8_counter :
    handle_stream (fun _ => Except.ok ()) newReader
      [[0xFF], asciiBytes "data: x\n\n"] = .ok ∧
    handle_stream (fun _ => Except.error ()) newReader
      [[0xFF], asciiBytes "data: x\n\n"] = .failed :=
  ⟨rfl, rfl⟩

end Cai

namespace Cai

/-- JSON values, modelling the fragment of `serde_json` the vendor
payloads use.  Numbers are restricted to integers: fractional or exponent
syntax is treated as a parse failure (no vendor field read by the code is
fractional). -/
inductive Json where
  | null
  | bool (b : Bool)
  | num (n : Int)
  | str (s : Str)
  | arr (elems : List Json)
  | obj (fields : List (Str × Json))

/-- JSON insignificant whitespace. -/
def skipWs (s : Str) : Str :=
  s.dropWhile fun c => c == ' ' || c == '\t' || c == '\n' || c == '\r'

/-- Hexadecimal digit value. -/
def hexVal (c : Char) : Option Nat :=
  if '0' ≤ c && c ≤ '9' then some (c.toNat - 48)
  else if 'a' ≤ c && c ≤ 'f' then some (c.toNat - 87)
  else if 'A' ≤ c && c ≤ 'F' then some (c.toNat - 55)
  else none

/-- Parses a JSON string body after the opening quote: returns the decoded
characters and the input after the closing quote.  Unicode escapes outside
the surrogate range are decoded; surrogates are rejected (the sources
never feed surrogate pairs). -/
def parseStrBody : Str → Option (Str × Str)
  | [] => none
  | '"' :: rest => some ([], rest)
  | '\\' :: r =>
    match r with
    | '"' :: rest =>
      match parseStrBody rest with
      | some (cs, t) => some ('"' :: cs, t)
      | none => none
    | '\\' :: rest =>
      match parseStrBody rest with
      | some (cs, t) => some ('\\' :: cs, t)
      | none => none
    | '/' :: rest =>
      match parseStrBody rest with
      | some (cs, t) => some ('/' :: cs, t)
      | none => none
    | 'n' :: rest =>
      match parseStrBody rest with
      | some (cs, t) => some ('\n' :: cs, t)
      | none => none
    | 't' :: rest =>
      match parseStrBody rest with
      | some (cs, t) => some ('\t' :: cs, t)
      | none => none
    | 'r' :: rest =>
      match parseStrBody rest with
      | some (cs, t) => some ('\r' :: cs, t)
      | none => none
    | 'b' :: rest =>
      match parseStrBody rest with
      | some (cs, t) => some ('\x08' :: cs, t)
      | none => none
    | 'f' :: rest =>
      match parseStrBody rest with
      | some (cs, t) => some ('\x0c' :: cs, t)
      | none => none
    | 'u' :: h1 :: h2 :: h3 :: h4 :: rest =>
      match hexVal h1, hexVal h2, hexVal h3, hexVal h4 with
      | some v1, some v2, some v3, some v4 =>
        let code := ((v1 * 16 + v2) * 16 + v3) * 16 + v4
        if 0xD800 ≤ code && code ≤ 0xDFFF then none
        else
          match parseStrBody rest with
          | some (cs, t) => some (Char.ofNat code :: cs, t)
          | none => none
      | _, _, _, _ => none
    | _ => none
  | c :: rest =>
    if c.toNat < 0x20 then none
    else
      match parseStrBody rest with
      | some (cs, t) => some (c :: cs, t)
      | none => none

/-- Digit run to a natural number. -/
def digitsToNat (ds : Str) : Nat :=
  ds.foldl (fun a c => a * 10 + (c.toNat - 48)) 0

/-- Parses a JSON integer literal (optional minus, no leading zero,
fractional and exponent forms rejected as unsupported). -/
def parseNum (s : Str) : Option (Int × Str) :=
  let (neg, s1) : Bool × Str := match s with
    | '-' :: r => (true, r)
    | _ => (false, s)
  let ds := s1.takeWhile Char.isDigit
  let rest := s1.dropWhile Char.isDigit
  if ds = [] then none
  else if 1 < ds.length ∧ ds.head? = some '0' then none
  else
    match rest with
    | '.' :: _ => none
    | 'e' :: _ => none
    | 'E' :: _ => none
    | _ =>
      let v : Int := Int.ofNat (digitsToNat ds)
      some ((if neg then -v else v), rest)

mutual

/-- Fueled JSON value parser (recursive descent). -/
def parseJsonF : Nat → Str → Option (Json × Str)
  | 0, _ => none
  | fuel + 1, s =>
    match skipWs s with
    | [] => none
    | 'n' :: 'u' :: 'l' :: 'l' :: rest => some (.null, rest)
    | 't' :: 'r' :: 'u' :: 'e' :: rest => some (.bool true, rest)
    | 'f' :: 'a' :: 'l' :: 's' :: 'e' :: rest => some (.bool false, rest)
    | '"' :: rest =>
      match parseStrBody rest with
      | some (cs, rest') => some (.str cs, rest')
      | none => none
    | '[' :: rest =>
      match skipWs rest with
      | ']' :: rest' => some (.arr [], rest')
      | _ =>
        match parseArrF fuel rest with
        | some (vs, rest') => some (.arr vs, rest')
        | none => none
    | '\x7b' :: rest =>
      match skipWs rest with
      | '\x7d' :: rest' => some (.obj [], rest')
      | _ =>
        match parseObjF fuel rest with
        | some (fs, rest') => some (.obj fs, rest')
        | none => none
    | s' =>
      match parseNum s' with
      | some (n, rest) => some (.num n, rest)
      | none => none

/-- Fueled parser for the elements of a nonempty JSON array (after `[`). -/
def parseArrF : Nat → Str → Option (List Json × Str)
  | 0, _ => none
  | fuel + 1, s =>
    match parseJsonF fuel s with
    | none => none
    | some (v, rest) =>
      match skipWs rest with
      | ',' :: rest' =>
        match parseArrF fuel rest' with
        | some (vs, rest'') => some (v :: vs, rest'')
        | none => none
      | ']' :: rest' => some ([v], rest')
      | _ => none

/-- Fueled parser for the members of a nonempty JSON object (after the
opening brace). -/
def parseObjF : Nat → Str → Option (List (Str × Json) × Str)
  | 0, _ => none
  | fuel + 1, s =>
    match skipWs s with
    | '"' :: rest =>
      match parseStrBody rest with
      | none => none
      | some (key, rest1) =>
        match skipWs rest1 with
        | ':' :: rest2 =>
          match parseJsonF fuel rest2 with
          | none => none
          | some (v, rest3) =>
            match skipWs rest3 with
            | ',' :: rest4 =>
              match parseObjF fuel rest4 with
              | some (fs, rest5) => some ((key, v) :: fs, rest5)
              | none => none
            | '\x7d' :: rest4 => some ([(key, v)], rest4)
            | _ => none
        | _ => none
    | _ => none

end

/-- Model of `serde_json::from_str` to a JSON value: parse one value and
require only trailing whitespace after it. -/
def parseJson (s : Str) : Option Json :=
  match parseJsonF (2 * s.length + 4) s with
  | some (v, rest) => if (skipWs rest).isEmpty then some v else none
  | none => none

/-- First field with the given key (`serde` field lookup). -/
def jLookup (fields : List (Str × Json)) (key : Str) : Option Json :=
  match fields with
  | [] => none
  | (k, v) :: rest => if k = key then some v else jLookup rest key

/-- Decode a JSON string. -/
def jString : Json → Option Str
  | .str s => some s
  | _ => none

/-- Decode a non-negative JSON integer (`usize`). -/
def jNatNum : Json → Option Nat
  | .num n => if 0 ≤ n then some n.toNat else none
  | _ => none

/-- Decode a JSON array. -/
def jArray : Json → Option (List Json)
  | .arr xs => some xs
  | _ => none

/-- Decode a JSON object. -/
def jObject : Json → Option (List (Str × Json))
  | .obj fs => some fs
  | _ => none

/-- Decode every element of a list or fail. -/
def decodeAll (dec : Json → Option α) : List Json → Option (List α)
  | [] => some []
  | j :: rest =>
    match dec j with
    | none => none
    | some a =>
      match decodeAll dec rest with
      | none => none
      | some xs => some (a :: xs)

end Cai

namespace Cai

/-- `StreamChatChoicesDelta` of openai.rs: `content: Option<String>`. -/
structure StreamChatChoicesDelta where
  content : Option Str
deriving DecidableEq, Repr

/-- `StreamChatChoices` of openai.rs: `delta`, `finish_reason` (any JSON
value), `index`. -/
structure StreamChatChoices where
  delta : StreamChatChoicesDelta
  finish_reason : Json
  index : Nat

/-- `StreamChat` of openai.rs. -/
structure StreamChat where
  choices : List StreamChatChoices
  created : Nat
  id : Str
  model : Str
  object : Str

/-- serde decode of `StreamChatChoicesDelta`: a missing or null `content`
field is `None`; any other non-string value is an error. -/
def decodeStreamChatDelta (j : Json) : Option StreamChatChoicesDelta :=
  match jObject j with
  | none => none
  | some fs =>
    match jLookup fs ("content".toList) with
    | none => some ⟨none⟩
    | some .null => some ⟨none⟩
    | some (.str s) => some ⟨some s⟩
    | some _ => none

/-- serde decode of `StreamChatChoices` (all three fields required;
unknown fields ignored, as serde does by default). -/
def decodeStreamChatChoice (j : Json) : Option StreamChatChoices :=
  match jObject j with
  | none => none
  | some fs =>
    match jLookup fs ("delta".toList) with
    | none => none
    | some dj =>
      match decodeStreamChatDelta dj with
      | none => none
      | some d =>
        match jLookup fs ("finish_reason".toList) with
        | none => none
        | some fr =>
          match (jLookup fs ("index".toList)).bind jNatNum with
          | none => none
          | some i => some ⟨d, fr, i⟩

/-- serde decode of `StreamChat` (all five fields required). -/
def decodeStreamChat (j : Json) : Option StreamChat :=
  match jObject j with
  | none => none
  | some fs =>
    match (jLookup fs ("choices".toList)).bind jArray with
    | none => none
    | some cj =>
      match decodeAll decodeStreamChatChoice cj with
      | none => none
      | some cs =>
        match (jLookup fs ("created".toList)).bind jNatNum with
        | none => none
        | some created =>
          match (jLookup fs ("id".toList)).bind jString with
          | none => none
          | some id =>
            match (jLookup fs ("model".toList)).bind jString with
            | none => none
            | some model =>
              match (jLookup fs ("object".toList)).bind jString with
              | none => none
              | some object => some ⟨cs, created, id, model, object⟩

/-- Model of `StreamChat::try_from(&str)` = `serde_json::from_str`. -/
def parseStreamChat (d : Str) : Option StreamChat :=
  (parseJson d).bind decodeStreamChat

/-- `ChatResponse` of openai.rs. -/
inductive ChatResponse where
  | Done
  | DeltaContent (content : Str)
deriving DecidableEq, Repr

/-- `From<StreamChat> for ChatResponse`: pop the last choice; a missing
choice or content yields the default empty delta. -/
def chatResponseOf (sc : StreamChat) : ChatResponse :=
  match sc.choices.getLast? with
  | none => .DeltaContent []
  | some c =>
    match c.delta.content with
    | none => .DeltaContent []
    | some t => .DeltaContent t

/-- Model of `ChatResponse::try_from(&str)`: the `"[DONE]"` prefix check
first, then the vendor JSON parse. -/
def chatResponse_try_from (d : Str) : Except Unit ChatResponse :=
  if ("[DONE]".toList).isPrefixOf d then .ok .Done
  else
    match parseStreamChat d with
    | some sc => .ok (chatResponseOf sc)
    | none => .error ()

/-- The closure `f` of `ChatCompletionsClient::request` (openai.rs:97-115):
only `Data` frames carry payload; a parse error is propagated with `?`;
`Done` returns without touching the handler; a delta is handed to the
handler. -/
def openaiRequestF (h : Str → Except Unit Unit) (s : SseResponse) : Except Unit Unit :=
  match s with
  | .Data d =>
    match chatResponse_try_from d with
    | .error _ => .error ()
    | .ok .Done => .ok ()
    | .ok (.DeltaContent c) => h c
  | _ => .ok ()

/-- The closure `f` of `ChatCompletionsClient::request_mut`
(openai.rs:139-151): converts a frame to the text to deliver; parse errors
propagate; `Done` and non-`Data` frames convert to the empty string. -/
def openaiMutConvert (s : SseResponse) : Except Unit Str :=
  match s with
  | .Data d =>
    match chatResponse_try_from d with
    | .error _ => .error ()
    | .ok .Done => .ok []
    | .ok (.DeltaContent c) => .ok c
  | _ => .ok []

/-- `GeminiContentPart` of gemini.rs. -/
structure GeminiContentPart where
  text : Str
deriving DecidableEq, Repr

/-- `GeminiRole` of gemini.rs (serde snake_case). -/
inductive GeminiRole where
  | user
  | model
deriving DecidableEq, Repr

/-- `GeminiContent` of gemini.rs. -/
structure GeminiContent where
  parts : List GeminiContentPart
  role : GeminiRole
deriving DecidableEq, Repr

/-- `GeminiResponseCandidate` of gemini.rs. -/
structure GeminiResponseCandidate where
  content : GeminiContent
deriving DecidableEq, Repr

/-- `GeminiResponse` of gemini.rs. -/
structure GeminiResponse where
  candidates : List GeminiResponseCandidate
deriving DecidableEq, Repr

/-- serde decode of `GeminiContentPart` (`text` required). -/
def decodeGeminiPart (j : Json) : Option GeminiContentPart :=
  match jObject j with
  | none => none
  | some fs =>
    match (jLookup fs ("text".toList)).bind jString with
    | none => none
    | some t => some ⟨t⟩

/-- serde decode of `GeminiRole` from its snake_case string. -/
def decodeGeminiRole (j : Json) : Option GeminiRole :=
  match jString j with
  | none => none
  | some s =>
    if s = "user".toList then some .user
    else if s = "model".toList then some .model
    else none

/-- serde decode of `GeminiContent` (`parts` and `role` required). -/
def decodeGeminiContent (j : Json) : Option GeminiContent :=
  match jObject j with
  | none => none
  | some fs =>
    match (jLookup fs ("parts".toList)).bind jArray with
    | none => none
    | some pj =>
      match decodeAll decodeGeminiPart pj with
      | none => none
      | some parts =>
        match (jLookup fs ("role".toList)).bind decodeGeminiRole with
        | none => none
        | some role => some ⟨parts, role⟩

/-- serde decode of `GeminiResponseCandidate` (`content` required). -/
def decodeGeminiCandidate (j : Json) : Option GeminiResponseCandidate :=
  match jObject j with
  | none => none
  | some fs =>
    match (jLookup fs ("content".toList)).bind decodeGeminiContent with
    | none => none
    | some c => some ⟨c⟩

/-- serde decode of `GeminiResponse` (`candidates` required). -/
def decodeGeminiResponse (j : Json) : Option GeminiResponse :=
  match jObject j with
  | none => none
  | some fs =>
    match (jLookup fs ("candidates".toList)).bind jArray with
    | none => none
    | some cj =>
      match decodeAll decodeGeminiCandidate cj with
      | none => none
      | some cands => some ⟨cands⟩

/-- Model of `serde_json::from_str::<GeminiResponse>`. -/
def parseGeminiResponse (d : Str) : Option GeminiResponse :=
  (parseJson d).bind decodeGeminiResponse

/-- `From<GeminiResponse> for String`: first candidate's first content
part's text, defaulting to the empty string. -/
def geminiToString (r : GeminiResponse) : Str :=
  match r.candidates.head? with
  | none => []
  | some c =>
    match c.content.parts.head? with
    | none => []
    | some p => p.text

/-- The closure `f` of `GeminiGenerateContent::request` (gemini.rs:79-94):
a parse error is propagated with `?`. -/
def geminiRequestF (h : Str → Except Unit Unit) (s : SseResponse) : Except Unit Unit :=
  match s with
  | .Data d =>
    match parseGeminiResponse d with
    | none => .error ()
    | some r => h (geminiToString r)
  | _ => .ok ()

/-- `ClaudeMessageStreamResponseDelta` of claude.rs. -/
structure ClaudeMessageStreamResponseDelta where
  text : Str
  type : Str
deriving DecidableEq, Repr

/-- `ClaudeMessageStreamResponse` of claude.rs. -/
structure ClaudeMessageStreamResponse where
  delta : ClaudeMessageStreamResponseDelta
  index : Nat
  type : Str
deriving DecidableEq, Repr

/-- serde decode of `ClaudeMessageStreamResponseDelta` (`text`, `type`
required). -/
def decodeClaudeDelta (j : Json) : Option ClaudeMessageStreamResponseDelta :=
  match jObject j with
  | none => none
  | some fs =>
    match (jLookup fs ("text".toList)).bind jString with
    | none => none
    | some t =>
      match (jLookup fs ("type".toList)).bind jString with
      | none => none
      | some ty => some ⟨t, ty⟩

/-- serde decode of `ClaudeMessageStreamResponse` (all fields required). -/
def decodeClaudeResponse (j : Json) : Option ClaudeMessageStreamResponse :=
  match jObject j with
  | none => none
  | some fs =>
    match (jLookup fs ("delta".toList)).bind decodeClaudeDelta with
    | none => none
    | some d =>
      match (jLookup fs ("index".toList)).bind jNatNum with
      | none => none
      | some i =>
        match (jLookup fs ("type".toList)).bind jString with
        | none => none
        | some ty => some ⟨d, i, ty⟩

/-- Model of `serde_json::from_str::<ClaudeMessageStreamResponse>`. -/
def parseClaudeResponse (d : Str) : Option ClaudeMessageStreamResponse :=
  (parseJson d).bind decodeClaudeResponse

/-- The closure `f` of `ClaudeMessageClient::request` (claude.rs:48-64):
the `let Ok(resp) = ... else { return Ok(()) }` silently skips frames that
fail to parse. -/
def claudeRequestF (h : Str → Except Unit Unit) (s : SseResponse) : Except Unit Unit :=
  match s with
  | .Data d =>
    match parseClaudeResponse d with
    | none => .ok ()
    | some r => h r.delta.text
  | _ => .ok ()

end Cai

namespace Cai

/-- Result of one streamed request through
`Response::handle_mut_stream_use_convert`, carrying the handler state the
caller retains (`&mut H`). -/
inductive MutRes (σ : Type) where
  | ok (s : σ)
  | failed (s : σ)
  | panicked (s : σ)
deriving DecidableEq, Repr

/-- The frame loop of `handle_mut_stream_use_convert`: `let s = f(s)?`
propagates a convert error, then `handler.handle_mut(s)` is always invoked
with the converted text (even the empty string) and its failure aborts. -/
def deliverConvert (f : SseResponse → Except Unit Str)
    (hm : σ → Str → Except Unit σ) : σ → List SseResponse → Except σ σ
  | st, [] => .ok st
  | st, s :: rest =>
    match f s with
    | .error _ => .error st
    | .ok txt =>
      match hm st txt with
      | .error _ => .error st
      | .ok st' => deliverConvert f hm st' rest

/-- Model of `Response::handle_mut_stream_use_convert` over a list of
transport byte chunks, with the handler modelled as a state-passing
function. -/
def handle_mut_stream_use_convert (f : SseResponse → Except Unit Str)
    (hm : σ → Str → Except Unit σ) :
    SseStreamReader → σ → List (List Nat) → MutRes σ
  | _, st, [] => .ok st
  | r, st, bytes :: rest =>
    match utf8Decode bytes with
    | none => handle_mut_stream_use_convert f hm r st rest
    | some s =>
      match maybe_parse r s with
      | none => .panicked st
      | some (r', none) => handle_mut_stream_use_convert f hm r' st rest
      | some (r', some frames) =>
        match deliverConvert f hm st frames with
        | .ok st' => handle_mut_stream_use_convert f hm r' st' rest
        | .error st' => .failed st'

/-- A recording sink: appends every delivered fragment. -/
def recorderSink (st : List Str) (txt : Str) : Except Unit (List Str) :=
  .ok (st ++ [txt])

end Cai

namespace Cai

theorem chatResponse_try_from_done {d : Str}
    (hp : ("[DONE]".toList).isPrefixOf d = true) :
    chatResponse_try_from d = .ok .Done := by
  unfold chatResponse_try_from
  rw [hp]
  rfl

theorem chatResponse_try_from_fail {d : Str}
    (hp : ("[DONE]".toList).isPrefixOf d = false) (hn : parseStreamChat d = none) :
    chatResponse_try_from d = .error () := by
  unfold chatResponse_try_from
  rw [hp, hn]
  rfl

/-- C3 (amended, corrected): only the Claude (Vendor A) adapter silently
ignores a `Data` frame whose payload fails vendor JSON parsing.  The
OpenAI (Vendor B) and Gemini (Vendor C) adapters propagate the parse
failure as an error (their closures return `Err` via `?`), which aborts
the stream. -/
theorem adapter_parse_failure_policy :
    (∀ (h : Str → Except Unit Unit) (d : Str), parseClaudeResponse d = none →
      claudeRequestF h (.Data d) = .ok ()) ∧
    (∀ (h : Str → Except Unit Unit) (d : Str),
      ("[DONE]".toList).isPrefixOf d = false → parseStreamChat d = none →
      openaiRequestF h (.Data d) = .error ()) ∧
    (∀ (h : Str → Except Unit Unit) (d : Str), parseGeminiResponse d = none →
      geminiRequestF h (.Data d) = .error ()) := by
  refine ⟨?_, ?_, ?_⟩
  · intro h d hn
    show (match parseClaudeResponse d with
      | none => Except.ok ()
      | some r => h r.delta.text) = Except.ok ()
    rw [hn]
  · intro h d hp hn
    show (match chatResponse_try_from d with
      | .error _ => Except.error ()
      | .ok .Done => Except.ok ()
      | .ok (.DeltaContent c) => h c) = Except.error ()
    rw [chatResponse_try_from_fail hp hn]
  · intro h d hn
    show (match parseGeminiResponse d with
      | none => Except.error ()
      | some r => h (geminiToString r)) = Except.error ()
    rw [hn]

/-- C3 witness: for the unparsable payload "nope", the Claude adapter
returns Ok without invoking the (always-failing) handler, while the OpenAI
and Gemini adapters return an error. -/
theorem adapter_parse_failure_policy_witness :
    claudeRequestF (fun _ => Except.error ()) (.Data ("nope".toList)) = .ok () ∧
    openaiRequestF (fun _ => Except.ok ()) (.Data ("nope".toList)) = .error () ∧
    geminiRequestF (fun _ => Except.ok ()) (.Data ("nope".toList)) = .error () :=
  ⟨adapter_parse_failure_policy.1 (fun _ => Except.error ()) ("nope".toList) (by rfl),
   adapter_parse_failure_policy.2.1 (fun _ => Except.ok ()) ("nope".toList) (by rfl) (by rfl),
   adapter_parse_failure_policy.2.2 (fun _ => Except.ok ()) ("nope".toList) (by rfl)⟩

/-- C3 counterexample: a `Data` frame with the unparsable payload "oops"
makes the OpenAI and Gemini request closures return an error (not a silent
skip), and at the stream level the whole OpenAI request fails — the frame
is not ignored and the stream is aborted, contradicting the claim for
these two adapters. -/
theorem adapter_parse_failure_counter :
    openaiRequestF (fun _ => Except.ok ()) (.Data ("oops".toList)) = .error () ∧
    geminiRequestF (fun _ => Except.ok ()) (.Data ("oops".toList)) = .error () ∧
    handle_stream (openaiRequestF (fun _ => Except.ok ())) newReader
      [asciiBytes "data: oops\n\n"] = .failed :=
  ⟨rfl, rfl, rfl⟩

/-- C5 (amended, corrected): a `Data` frame whose text starts with
`"[DONE]"` yields `ChatResponse::Done`; in the read-only request path the
closure returns Ok without invoking the handler for that frame, and in the
request_mut path the frame is converted to the empty string — which *is*
delivered to the sink.  In neither path does the orchestration loop end at
the sentinel: it continues with subsequent frames. -/
theorem done_sentinel_behavior :
    (∀ d : Str, ("[DONE]".toList).isPrefixOf d = true →
      chatResponse_try_from d = .ok .Done) ∧
    (∀ (h : Str → Except Unit Unit) (d : Str), ("[DONE]".toList).isPrefixOf d = true →
      openaiRequestF h (.Data d) = .ok ()) ∧
    (∀ d : Str, ("[DONE]".toList).isPrefixOf d = true →
      openaiMutConvert (.Data d) = .ok []) := by
  refine ⟨?_, ?_, ?_⟩
  · intro d hp
    exact chatResponse_try_from_done hp
  · intro h d hp
    show (match chatResponse_try_from d with
      | .error _ => Except.error ()
      | .ok .Done => Except.ok ()
      | .ok (.DeltaContent c) => h c) = Except.ok ()
    rw [chatResponse_try_from_done hp]
  · intro d hp
    show (match chatResponse_try_from d with
      | .error _ => Except.error ()
      | .ok .Done => Except.ok []
      | .ok (.DeltaContent c) => Except.ok c) = Except.ok []
    rw [chatResponse_try_from_done hp]

/-- C5 witness: the literal "[DONE]" payload is recognized in all three
places. -/
theorem done_sentinel_behavior_witness :
    chatResponse_try_from ("[DONE]".toList) = .ok .Done ∧
    openaiRequestF (fun _ => Except.error ()) (.Data ("[DONE]".toList)) = .ok () ∧
    openaiMutConvert (.Data ("[DONE]".toList)) = .ok [] :=
  ⟨done_sentinel_behavior.1 ("[DONE]".toList) (by rfl),
   done_sentinel_behavior.2.1 (fun _ => Except.error ()) ("[DONE]".toList) (by rfl),
   done_sentinel_behavior.2.2 ("[DONE]".toList) (by rfl)⟩

/-- A well-formed Vendor B streaming payload whose single choice carries
the delta text "x". -/
def jsonX : String :=
  "\x7b\"choices\":[\x7b\"delta\":\x7b\"content\":\"x\"\x7d,\"finish_reason\":null,\"index\":0\x7d],\"created\":1,\"id\":\"a\",\"model\":\"m\",\"object\":\"o\"\x7d"

/-- C5 counterexample: one chunk carrying a "[DONE]" frame followed by a
real delta frame.  In the request_mut path the recorder sink receives the
empty string for the sentinel frame and then "x" — so something *is*
delivered for the sentinel frame and the loop does not end there; in the
read-only path a rejecting handler still gets invoked for the later frame
(the request fails), so the loop continued past the sentinel, both
contradicting the claim. -/
theorem done_sentinel_counter :
    handle_mut_stream_use_convert openaiMutConvert recorderSink newReader []
      [asciiBytes ("data: [DONE]\n\ndata: " ++ jsonX ++ "\n\n")] =
      .ok [[], "x".toList] ∧
    handle_stream (openaiRequestF (fun _ => Except.error ())) newReader
      [asciiBytes ("data: [DONE]\n\ndata: " ++ jsonX ++ "\n\n")] = .failed :=
  ⟨rfl, rfl⟩

end Cai

namespace Cai

/-- The error type of the handler traits (`HandlerError`). -/
def HandlerError : Type := Unit

/-- A member sink of a `container_handler` Container: its `handle_mut`
behaviour as a state machine that consumes a fragment and either fails or
returns its successor state.  The macro is generic over the member types;
this models an arbitrary member. -/
inductive Member : Type where
  | mk (step : Str → Except HandlerError Member)

/-- The `handle_mut` call on one member. -/
def Member.step : Member → Str → Except HandlerError Member
  | .mk f => f

/-- The `Handler::handle` impl the `container_handler` macro generates: it
ignores the fragment and the members and returns `Ok(())`. -/
def container_handle (_members : List Member) (_resp : Str) :
    Except HandlerError Unit :=
  .ok ()

/-- The `MutHandler::handle_mut` impl the `container_handler` macro
generates: `self.$name.handle_mut(resp).await?` for every member in
declared order, short-circuiting on the first failure. -/
def container_handle_mut : List Member → Str → Except HandlerError (List Member)
  | [], _ => .ok []
  | m :: ms, resp =>
    match m.step resp with
    | .error e => .error e
    | .ok m' =>
      match container_handle_mut ms resp with
      | .error e => .error e
      | .ok ms' => .ok (m' :: ms')

/-- C9 (confirmed): for every Container produced by the `container_handler`
macro and every fragment, the read-only `handle` is a no-op — it succeeds
for every member list (in particular for members whose invocation would
fail, so no member is invoked) — while `handle_mut` drives exactly the
members in declared order: the head member first, then the rest, with its
failure short-circuiting the remainder. -/
theorem container_handle_noop :
    (∀ (members : List Member) (resp : Str),
      container_handle members resp = .ok ()) ∧
    (∀ (m : Member) (ms : List Member) (resp : Str),
      container_handle_mut (m :: ms) resp =
        match m.step resp with
        | .error e => .error e
        | .ok m' =>
          match container_handle_mut ms resp with
          | .error e => .error e
          | .ok ms' => .ok (m' :: ms')) := by
  constructor
  · intro members resp
    rfl
  · intro m ms resp
    rfl

end Cai
